import Mathlib

/-!
Verification of the computational core of `arc_summary.go` (a Go rewrite of
the ZFS `arc_summary.py` reporting tool): the human-readable numeric
formatters `fBytes`, `fHits`, `fPerc`, the `/proc` statistic-line parser
`cleanProcLine`, the section registry `isLegalSection`, and the derived-metric
computations of `printARC` and `printVDEV`.

The Go code converts `uint64` counters to `float64` before formatting.  Here
float64 values are modelled exactly as unnormalized integer fractions (`FQ`),
and every float64 operation (conversion, multiplication, division) applies
IEEE-754 round-to-nearest, ties-to-even at 53 significant bits explicitly, so
all definitions are kernel-computable.  Fallible operations (`log.Fatal`,
index panics) are modelled with `Option`, `none` meaning abnormal termination.
-/

/-- An unnormalized rational number `n / d`.  Used to model IEEE-754 binary64
(`float64`) values and exact intermediate quotients with plain integer
arithmetic.  Every operation below keeps the denominator positive when the
denominators of its inputs are positive. -/
structure FQ where
  n : ℤ
  d : ℕ
  deriving DecidableEq

/-- The rational number an `FQ` pair denotes. -/
def FQ.toRat (x : FQ) : ℚ := (x.n : ℚ) / (x.d : ℚ)

/-- Comparison `x <= y` by cross multiplication.  Go's float comparison of two
exactly represented values is exact, so no rounding is involved. -/
def FQ.ble (x y : FQ) : Bool := decide (x.n * (y.d : ℤ) ≤ y.n * (x.d : ℤ))

/-- Comparison `x < y` by cross multiplication. -/
def FQ.blt (x y : FQ) : Bool := decide (x.n * (y.d : ℤ) < y.n * (x.d : ℤ))

/-- Exact product of two fractions. -/
def FQ.mul (x y : FQ) : FQ := ⟨x.n * y.n, x.d * y.d⟩

/-- Exact quotient of two fractions, for a divisor with positive numerator
(the only divisions the program performs: unit thresholds, and denominators
explicitly checked positive in `fPerc`). -/
def FQ.divPos (x y : FQ) : FQ := ⟨x.n * (y.d : ℤ), x.d * y.n.toNat⟩

/-- Floor of an `FQ` value; `Int` division `/` is Euclidean, which is the
floor for a positive denominator. -/
def FQ.fl (x : FQ) : ℤ := x.n / (x.d : ℤ)

/-- Round a fraction (with positive denominator) to the nearest integer, ties
to even.  This is the rounding of IEEE-754 binary64 arithmetic and also the
rounding Go's `strconv` applies to the decimal expansion in fixed-precision
formatting. -/
def roundHalfEvenInt (q : FQ) : ℤ :=
  let m := q.fl
  let r2 := 2 * (q.n - m * (q.d : ℤ))
  if r2 < (q.d : ℤ) then m
  else if (q.d : ℤ) < r2 then m + 1
  else if m % 2 = 0 then m else m + 1

/-- Fueled base-2 logarithm: `log2fuel fuel n = ⌊log₂ n⌋` for `1 ≤ n < 2 ^ fuel`
(and `0` at `n = 0`).  Structural fuel keeps it kernel-computable. -/
def log2fuel : ℕ → ℕ → ℕ
  | 0, _ => 0
  | fuel + 1, n => if n < 2 then 0 else log2fuel fuel (n / 2) + 1

/-- Fueled negative-exponent search for a fraction `n / d` in `(0, 1)`:
`negExpFuel fuel n d` is the smallest `k` with `d ≤ n * 2 ^ k`, i.e. the `k`
with `2 ^ (-k) ≤ n / d < 2 ^ (-(k-1))`, provided `0 < n < d` and the ratio is
above `2 ^ (-fuel)`.  Structural fuel keeps it kernel-computable. -/
def negExpFuel : ℕ → ℤ → ℤ → ℕ
  | 0, _, _ => 0
  | fuel + 1, n, d => if d ≤ n then 0 else negExpFuel fuel (2 * n) d + 1

/-- Round a nonnegative fraction to 53 significant binary digits, nearest,
ties to even: IEEE-754 binary64 rounding for positive magnitudes in
`(2^-96, 2^96)`, which covers every conversion and arithmetic result this
program produces (conversions of unsigned 64-bit integers, products of at
most `100 * 2^64`, and quotients `100 * u / l` of magnitude at least
`100 / 2^64`, far above both the fuel bound and the binary64 subnormal
threshold `2^-1022`, so no subnormal handling is needed).  The binade
exponent of a value `≥ 1` is read off its integer part with `log2fuel`; the
exponent of a value in `(0, 1)` is `-k` for the smallest `k` with
`1/q ≤ 2^k`, computed by `negExpFuel`; zero rounds to zero. -/
def round53pos (q : FQ) : FQ :=
  if (q.d : ℤ) ≤ q.n then
    if log2fuel 96 q.fl.toNat ≤ 52 then
      ⟨roundHalfEvenInt ⟨q.n * 2 ^ (52 - log2fuel 96 q.fl.toNat), q.d⟩,
       2 ^ (52 - log2fuel 96 q.fl.toNat)⟩
    else
      ⟨roundHalfEvenInt ⟨q.n, q.d * 2 ^ (log2fuel 96 q.fl.toNat - 52)⟩ *
       2 ^ (log2fuel 96 q.fl.toNat - 52), 1⟩
  else if q.n ≤ 0 then ⟨0, 1⟩
  else
    ⟨roundHalfEvenInt ⟨q.n * 2 ^ (52 + negExpFuel 96 q.n (q.d : ℤ)), q.d⟩,
     2 ^ (52 + negExpFuel 96 q.n (q.d : ℤ))⟩

/-- IEEE-754 binary64 rounding, extended to negative values by the sign
symmetry of round-to-nearest-even. -/
def round53 (q : FQ) : FQ :=
  if q.n < 0 then
    ⟨-(round53pos ⟨-q.n, q.d⟩).n, (round53pos ⟨-q.n, q.d⟩).d⟩
  else round53pos q

/-- float64 division: round the exact quotient (divisor positive). -/
def fdiv (x y : FQ) : FQ := round53 (x.divPos y)

/-- float64 multiplication: round the exact product. -/
def fmul (x y : FQ) : FQ := round53 (x.mul y)

/-- Go's `uint64`-to-`float64` conversion `float64(b)`: round to nearest,
ties to even. -/
def u64ToFloat (b : ℕ) : FQ := round53 ⟨(b : ℤ), 1⟩

/-- Magnitude half of `fmt.Sprintf("%0.1f", v)`: round the exact decimal
expansion to one fractional digit (nearest; a tie would round to even, but a
tie cannot occur for a binary fraction) and print `<integer part>.<digit>`. -/
def fmtFixed1Pos (q : FQ) : String :=
  let m := (roundHalfEvenInt ⟨q.n * 10, q.d⟩).toNat
  toString (m / 10) ++ "." ++ toString (m % 10)

/-- Go's `fmt.Sprintf("%0.1f", v)` for a finite value: sign, then the rounded
magnitude. -/
def fmtFixed1 (q : FQ) : String :=
  if q.n < 0 then "-" ++ fmtFixed1Pos ⟨-q.n, q.d⟩ else fmtFixed1Pos q

/-- The unit list of `fBytes` (src/arc_summary.go line 107); the first element
`"Bytes"` is a dummy entry "to aid indexing". -/
def unitsBytes : List String := ["Bytes", "KiB", "MiB", "GiB", "TiB", "PiB", "EiB"]

/-- The unit list of `fHits` (src/arc_summary.go line 141); the first element
`" "` is a dummy entry. -/
def unitsHits : List String := [" ", "k", "M", "G", "T", "P", "E"]

/-- `limit = math.Pow(float64(2), float64(i*10))` in the `fBytes` loop: a power
of two, exactly representable in float64. -/
def bytesLimit (i : ℕ) : FQ := ⟨2 ^ (10 * i), 1⟩

/-- `limit = math.Pow10(i * 3)` in the `fHits` loop: powers of ten up to
`10^18` are exactly representable in float64. -/
def hitsLimit (i : ℕ) : FQ := ⟨10 ^ (3 * i), 1⟩

/-- The descending unit-search loop shared verbatim by `fBytes` and `fHits`:
`for i := len(units) - 1; i > 0; i--`, breaking at the first `i` whose
threshold is met, with `value` and `unit` keeping their zero values `(0, "")`
when no unit matches. -/
def scanUnits (limit : ℕ → FQ) (units : List String) (x : FQ) : ℕ → FQ × String
  | 0 => (⟨0, 1⟩, "")
  | i + 1 =>
    if (limit (i + 1)).ble x then (fdiv x (limit (i + 1)), units.getD (i + 1) "")
    else scanUnits limit units x i

/-- The numeric core of `fBytes` (src/arc_summary.go lines 104-133), operating
on the `uint64` produced by `stringToUint64`.  Values below 1024 print as
`"<b> Bytes"`; otherwise the converted float is divided by the first threshold
(scanning down from EiB) that it meets and printed with one decimal digit, a
space and the unit. -/
def fBytesCore (b : ℕ) : String :=
  if b < 1024 then toString b ++ " Bytes"
  else
    let fb := u64ToFloat b
    let vu := scanUnits bytesLimit unitsBytes fb 6
    fmtFixed1 vu.1 ++ " " ++ vu.2

/-- The numeric core of `fHits` (src/arc_summary.go lines 138-167).  Note the
small branch is `fmt.Sprintf("%d    ", hits)`: the decimal digits followed by
four blanks ("Leave spaces to align with unit output").  The large branch
prints one decimal digit immediately followed by the unit letter. -/
def fHitsCore (hits : ℕ) : String :=
  if hits < 1000 then toString hits ++ "    "
  else
    let fh := u64ToFloat hits
    let vu := scanUnits hitsLimit unitsHits fh 6
    fmtFixed1 vu.1 ++ vu.2

/-- Decimal digit string to number; `none` on a non-digit or on empty input. -/
def digitsToNatAux : List Char → ℕ → Option ℕ
  | [], acc => some acc
  | c :: cs, acc =>
    if c.isDigit then digitsToNatAux cs (acc * 10 + (c.toNat - 48)) else none

/-- Value of a nonempty string of decimal digits. -/
def digitsToNat (cs : List Char) : Option ℕ :=
  if cs.isEmpty then none else digitsToNatAux cs 0

/-- Model of `stringToUint64` (src/arc_summary.go lines 568-576):
`strconv.ParseUint(s, 0, 64)` with `log.Fatal` on error, modelled as `none`.
The kernel statistics this program reads are plain decimal unsigned integers,
and that is the sublanguage modelled here (the `0x`/`0o`/`0b` prefixes and
underscores of base-0 parsing never occur in `/proc` data); values outside
64 bits are a range error in Go and are `none` here too. -/
def stringToUint64 (s : String) : Option ℕ :=
  match digitsToNat s.data with
  | some v => if v < 2 ^ 64 then some v else none
  | none => none

/-- Model of `strconv.ParseFloat(s, 64)` as used by `fPerc`, on the integer
literals this program feeds it (kernel counters, and the decimal rendering of
a `uint64` sum): an optional sign followed by decimal digits, converted to the
nearest float64.  Fractions, exponents, hex floats and magnitudes of 2^64 or
more are outside the modelled sublanguage and return `none`. -/
def parseFloat64 (s : String) : Option FQ :=
  match s.data with
  | '-' :: rest =>
    match digitsToNat rest with
    | some v => if v < 2 ^ 64 then some (round53 ⟨-(v : ℤ), 1⟩) else none
    | none => none
  | '+' :: rest =>
    match digitsToNat rest with
    | some v => if v < 2 ^ 64 then some (round53 ⟨(v : ℤ), 1⟩) else none
    | none => none
  | _ =>
    match digitsToNat s.data with
    | some v => if v < 2 ^ 64 then some (round53 ⟨(v : ℤ), 1⟩) else none
    | none => none

/-- `fPerc` (src/arc_summary.go lines 172-191): parse both operands as
float64 (`log.Fatal`, i.e. `none`, if either fails), answer the blank
placeholder `" "` unless the denominator is positive, otherwise format
`100 * u / l` (float64 arithmetic, left associated) with one decimal digit
and a `" %"` suffix. -/
def fPerc (upper lower : String) : Option String :=
  match parseFloat64 upper, parseFloat64 lower with
  | some u, some l =>
    some (if (⟨0, 1⟩ : FQ).blt l then fmtFixed1 (fdiv (fmul ⟨100, 1⟩ u) l) ++ " %" else " ")
  | _, _ => none

/-- `fBytes` (src/arc_summary.go lines 104-133) as called on a raw statistic
string: `stringToUint64` then the numeric formatting. -/
def fBytes (s : String) : Option String := (stringToUint64 s).map fBytesCore

/-- `fHits` (src/arc_summary.go lines 138-167) as called on a raw statistic
string. -/
def fHits (s : String) : Option String := (stringToUint64 s).map fHitsCore

/-- The white space set of Go's `strings.Fields` and `strings.TrimSpace`
(`unicode.IsSpace`), restricted to Latin-1: space, tab, newline, vertical tab,
form feed, carriage return, next line, and no-break space. -/
def goIsSpace (c : Char) : Bool :=
  c = ' ' || c = '\t' || c = '\n' || c = (Char.ofNat 11) || c = (Char.ofNat 12) ||
  c = '\r' || c = (Char.ofNat 133) || c = (Char.ofNat 160)

/-- Accumulator pass of `strings.Fields`: split around maximal runs of white
space, never producing empty fields. -/
def goFieldsAux : List Char → List Char → List String
  | [], acc => if acc.isEmpty then [] else [String.mk acc.reverse]
  | c :: cs, acc =>
    if goIsSpace c then
      if acc.isEmpty then goFieldsAux cs []
      else String.mk acc.reverse :: goFieldsAux cs []
    else goFieldsAux cs (c :: acc)

/-- Go's `strings.Fields`. -/
def goFields (s : String) : List String := goFieldsAux s.data []

/-- Go's `strings.TrimSpace`: drop white space from both ends. -/
def goTrimSpace (s : String) : String :=
  String.mk (((s.data.dropWhile goIsSpace).reverse.dropWhile goIsSpace).reverse)

/-- `cleanProcLine` (src/arc_summary.go lines 96-99): split the raw `/proc`
line into fields and return `(fields[0], fields[2])`, each passed through
`strings.TrimSpace` as in the source.  The index accesses panic in Go when
fewer than three fields exist; that abnormal termination is `none` here. -/
def cleanProcLine (s : String) : Option (String × String) :=
  let fs := goFields s
  if h : 2 < fs.length then
    some (goTrimSpace (fs.get ⟨0, by omega⟩), goTrimSpace (fs.get ⟨2, h⟩))
  else none

/-- The section registry (src/arc_summary.go line 56). -/
def sections : List String :=
  ["arc", "dmu", "l2arc", "tunables", "vdev", "xuio", "zfetch", "zil"]

/-- `isLegalSection` (src/arc_summary.go lines 298-306): scan the whole
`sections` list, setting the result to `true` on a match (no early exit). -/
def isLegalSection (sec : String) : Bool :=
  sections.foldl (fun result s => if sec = s then true else result) false

/-- The values `printARC` (src/arc_summary.go lines 421-456) computes and
hands to the print-layout helpers, in source order. -/
structure ARCReport where
  health : String
  throttleCount : String
  arcPerc : String
  arcSize : String
  targetSize : String
  minSize : String
  maxSize : String
  mfuPerc : String
  mruPerc : String
  mfuSizeStr : String
  mruSizeStr : String
  deriving DecidableEq

/-- The derived-metric computation of `printARC` (src/arc_summary.go lines
421-456), abstracted over the section map `arcStats` built by `procSection`
(a Go map lookup of a missing key yields `""`).  Any `log.Fatal` inside a
formatter makes the whole report `none`.  `cacheTotal` is the `uint64` sum
`stringToUint64(mfuSize) + stringToUint64(mruSize)`, hence reduced mod 2^64,
rendered back to decimal by `strconv.FormatUint(cacheTotal, 10)`. -/
def printARCData (stats : String → String) : Option ARCReport := do
  let throttle := stats "memory_throttle_count"
  let health := if throttle ≠ "0" then "THROTTLED" else "HEALTHY"
  let throttleCount ← fHits throttle
  let arcSize ← fBytes (stats "size")
  let arcPerc ← fPerc (stats "size") (stats "c_max")
  let targetSize ← fBytes (stats "c")
  let minSize ← fBytes (stats "c_min")
  let maxSize ← fBytes (stats "c_max")
  let mfuSize := stats "mfu_size"
  let mruSize := stats "mru_size"
  let mfuN ← stringToUint64 mfuSize
  let mruN ← stringToUint64 mruSize
  let cacheTotal := (mfuN + mruN) % 2 ^ 64
  let cacheTotalString := toString cacheTotal
  let mfuPerc ← fPerc mfuSize cacheTotalString
  let mruPerc ← fPerc mruSize cacheTotalString
  let mfuSizeStr ← fBytes mfuSize
  let mruSizeStr ← fBytes mruSize
  return ⟨health, throttleCount, arcPerc, arcSize, targetSize, minSize, maxSize,
          mfuPerc, mruPerc, mfuSizeStr, mruSizeStr⟩

/-- The three data rows `printVDEV` prints: label, percentage, count. -/
structure VDEVReport where
  hitRow : String × String × String
  missRow : String × String × String
  delegRow : String × String × String
  deriving DecidableEq

/-- The derived-metric computation of `printVDEV` (src/arc_summary.go lines
514-533).  `t` is the `uint64` sum of the three counters (mod 2^64), and all
three rows print `fHits(hits)` as their count column, exactly as in the
source (lines 530-532). -/
def printVDEVData (stats : String → String) : Option VDEVReport := do
  let delegations := stats "delegations"
  let misses := stats "misses"
  let hits := stats "hits"
  let dN ← stringToUint64 delegations
  let mN ← stringToUint64 misses
  let hN ← stringToUint64 hits
  let t := (dN + mN + hN) % 2 ^ 64
  let total := toString t
  let hitRatio ← fPerc hits total
  let missRatio ← fPerc misses total
  let delegationsRatio ← fPerc delegations total
  let hitCount ← fHits hits
  return ⟨("Cache hits:", hitRatio, hitCount),
          ("Cache misses:", missRatio, hitCount),
          ("Cache delegations:", delegationsRatio, hitCount)⟩

/-- A statistics map exercising every field `printARC` reads. -/
def arcStats0 (k : String) : String :=
  if k = "memory_throttle_count" then "0"
  else if k = "size" then "1000"
  else if k = "c_max" then "2000"
  else if k = "c" then "1500"
  else if k = "c_min" then "500"
  else if k = "mfu_size" then "600"
  else "300"

/-- A statistics map exercising every field `printVDEV` reads. -/
def vdevStats0 (k : String) : String :=
  if k = "delegations" then "40"
  else if k = "misses" then "160"
  else "1800"

/-- The report `printARC` computes from `arcStats0`. -/
def arcRep0 : ARCReport :=
  ⟨"HEALTHY", "0    ", "50.0 %", "1000 Bytes", "1.5 KiB", "500 Bytes", "2.0 KiB",
   "66.7 %", "33.3 %", "600 Bytes", "300 Bytes"⟩

/-- The report `printVDEV` computes from `vdevStats0`. -/
def vdevRep0 : VDEVReport :=
  ⟨("Cache hits:", "90.0 %", "1.8k"),
   ("Cache misses:", "8.0 %", "1.8k"),
   ("Cache delegations:", "2.0 %", "1.8k")⟩

/-! ## Transfer lemmas between the integer-pair computations and `ℚ` -/

theorem FQ.toRat_mk (a : ℤ) (b : ℕ) : FQ.toRat ⟨a, b⟩ = (a : ℚ) / (b : ℚ) := rfl

theorem FQ.ble_iff (x y : FQ) (hx : 0 < x.d) (hy : 0 < y.d) :
    x.ble y = true ↔ x.toRat ≤ y.toRat := by
  have hx2 : (0 : ℚ) < (x.d : ℚ) := by exact_mod_cast hx
  have hy2 : (0 : ℚ) < (y.d : ℚ) := by exact_mod_cast hy
  rw [FQ.ble, decide_eq_true_eq, FQ.toRat, FQ.toRat, div_le_div_iff₀ hx2 hy2]
  exact_mod_cast Iff.rfl

theorem FQ.ble_eq_false_iff (x y : FQ) (hx : 0 < x.d) (hy : 0 < y.d) :
    x.ble y = false ↔ y.toRat < x.toRat := by
  rw [← not_le, ← FQ.ble_iff x y hx hy]
  cases h : x.ble y <;> simp [h]

theorem FQ.blt_iff (x y : FQ) (hx : 0 < x.d) (hy : 0 < y.d) :
    x.blt y = true ↔ x.toRat < y.toRat := by
  have hx2 : (0 : ℚ) < (x.d : ℚ) := by exact_mod_cast hx
  have hy2 : (0 : ℚ) < (y.d : ℚ) := by exact_mod_cast hy
  rw [FQ.blt, decide_eq_true_eq, FQ.toRat, FQ.toRat, div_lt_div_iff₀ hx2 hy2]
  exact_mod_cast Iff.rfl

/-! ## Properties of floor and round-half-even on `FQ` -/

theorem FQ.fl_bounds (q : FQ) (hd : 0 < q.d) :
    q.fl * (q.d : ℤ) ≤ q.n ∧ q.n < (q.fl + 1) * (q.d : ℤ) := by
  have hd3 : (0 : ℤ) < (q.d : ℤ) := by exact_mod_cast hd
  exact ⟨Int.ediv_mul_le q.n hd3.ne.symm, Int.lt_ediv_add_one_mul_self q.n hd3⟩

theorem roundHalfEvenInt_split (q : FQ) :
    (roundHalfEvenInt q = q.fl ∧ 2 * (q.n - q.fl * (q.d : ℤ)) ≤ (q.d : ℤ)) ∨
    (roundHalfEvenInt q = q.fl + 1 ∧ (q.d : ℤ) ≤ 2 * (q.n - q.fl * (q.d : ℤ))) := by
  rw [roundHalfEvenInt]
  split_ifs <;> simp_all <;> omega

theorem roundHalfEvenInt_bounds (q : FQ) (hd : 0 < q.d) :
    q.toRat - 1 / 2 ≤ (roundHalfEvenInt q : ℚ) ∧
    (roundHalfEvenInt q : ℚ) ≤ q.toRat + 1 / 2 := by
  have hd2 : (0 : ℚ) < (q.d : ℚ) := by exact_mod_cast hd
  obtain ⟨hfl1, hfl2⟩ := FQ.fl_bounds q hd
  have htr : q.toRat = (q.n : ℚ) / (q.d : ℚ) := rfl
  have hA : (q.fl : ℚ) ≤ q.toRat := by
    rw [htr, le_div_iff₀ hd2]; exact_mod_cast hfl1
  have hB : q.toRat < (q.fl : ℚ) + 1 := by
    rw [htr, div_lt_iff₀ hd2]
    calc (q.n : ℚ) < ((q.fl + 1 : ℤ) : ℚ) * (q.d : ℚ) := by exact_mod_cast hfl2
    _ = ((q.fl : ℚ) + 1) * (q.d : ℚ) := by push_cast; ring
  rcases roundHalfEvenInt_split q with ⟨he, hr⟩ | ⟨he, hr⟩
  · have hrq : 2 * ((q.n : ℚ) - (q.fl : ℚ) * (q.d : ℚ)) ≤ (q.d : ℚ) := by exact_mod_cast hr
    have hup : q.toRat ≤ (q.fl : ℚ) + 1 / 2 := by
      rw [htr, div_le_iff₀ hd2]; nlinarith
    rw [he]
    constructor <;> linarith
  · have hrq : (q.d : ℚ) ≤ 2 * ((q.n : ℚ) - (q.fl : ℚ) * (q.d : ℚ)) := by exact_mod_cast hr
    have hlo : (q.fl : ℚ) + 1 / 2 ≤ q.toRat := by
      rw [htr, le_div_iff₀ hd2]; nlinarith
    rw [he]
    push_cast
    constructor <;> linarith

theorem roundHalfEvenInt_exact (m : ℤ) : roundHalfEvenInt ⟨m, 1⟩ = m := by
  have h1 : FQ.fl ⟨m, 1⟩ = m := by simp [FQ.fl]
  rw [roundHalfEvenInt]
  simp [h1]

/-! ## Properties of the fueled logarithm and of `round53` -/

theorem log2fuel_spec : ∀ fuel n : ℕ, 1 ≤ n → n < 2 ^ fuel →
    2 ^ log2fuel fuel n ≤ n ∧ n < 2 ^ (log2fuel fuel n + 1) := by
  intro fuel
  induction fuel with
  | zero => intro n h1 h2; omega
  | succ f ih =>
    intro n h1 h2
    rw [log2fuel]
    by_cases hsmall : n < 2
    · simp only [if_pos hsmall]; omega
    · simp only [if_neg hsmall]
      have hhalf1 : 1 ≤ n / 2 := by omega
      have hhalf2 : n / 2 < 2 ^ f := by
        have := Nat.pow_succ 2 f
        omega
      obtain ⟨ha, hb⟩ := ih (n / 2) hhalf1 hhalf2
      constructor
      · have : 2 ^ (log2fuel f (n / 2) + 1) = 2 * 2 ^ log2fuel f (n / 2) := by ring
        rw [this]
        omega
      · have : 2 ^ (log2fuel f (n / 2) + 1 + 1) = 2 * 2 ^ (log2fuel f (n / 2) + 1) := by ring
        rw [this]
        omega


theorem round53pos_den_pos (q : FQ) : 0 < (round53pos q).d := by
  unfold round53pos
  split
  · split
    · exact pow_pos (by norm_num) _
    · exact Nat.one_pos
  · split
    · exact Nat.one_pos
    · exact pow_pos (by norm_num) _

theorem round53_den_pos (q : FQ) : 0 < (round53 q).d := by
  unfold round53
  split
  · exact round53pos_den_pos ⟨-q.n, q.d⟩
  · exact round53pos_den_pos q

theorem u64ToFloat_den_pos (v : ℕ) : 0 < (u64ToFloat v).d :=
  round53_den_pos ⟨(v : ℤ), 1⟩

theorem log2fuel_zero_eq (fuel : ℕ) : log2fuel fuel 0 = 0 := by
  cases fuel with
  | zero => rfl
  | succ f => rw [log2fuel]; norm_num

theorem round53_natCast_exact (v : ℕ) (hv : v < 2 ^ 53) :
    (round53 ⟨(v : ℤ), 1⟩).toRat = (v : ℚ) := by
  have hneg : ¬ ((v : ℤ) < 0) := by omega
  have hfl : (FQ.fl ⟨(v : ℤ), 1⟩).toNat = v := by simp [FQ.fl]
  rcases Nat.eq_zero_or_pos v with h0 | h1
  · subst h0
    rw [show round53 ⟨((0 : ℕ) : ℤ), 1⟩ = (⟨0, 1⟩ : FQ) from by decide, FQ.toRat_mk]
    norm_num
  · have hcond : ((1 : ℕ) : ℤ) ≤ (v : ℤ) := by exact_mod_cast h1
    have he : log2fuel 96 v ≤ 52 := by
      obtain ⟨hlo, _⟩ := log2fuel_spec 96 v h1 (lt_trans hv (by norm_num))
      by_contra hcon
      push_neg at hcon
      have : (2 : ℕ) ^ 53 ≤ 2 ^ log2fuel 96 v := Nat.pow_le_pow_right (by norm_num) hcon
      omega
    unfold round53
    rw [if_neg hneg]
    unfold round53pos
    rw [hfl, if_pos hcond, if_pos he, roundHalfEvenInt_exact, FQ.toRat]
    push_cast
    rw [mul_div_assoc, div_self (by positivity), mul_one]

theorem round53_natCast_ge_1024 (v : ℕ) (h53 : 2 ^ 53 ≤ v) (h96 : v < 2 ^ 96) :
    (1024 : ℚ) ≤ (round53 ⟨(v : ℤ), 1⟩).toRat := by
  have hneg : ¬ ((v : ℤ) < 0) := by omega
  have hfl : (FQ.fl ⟨(v : ℤ), 1⟩).toNat = v := by simp [FQ.fl]
  have h1 : 1 ≤ v := le_trans (by norm_num) h53
  obtain ⟨hlo, hhi⟩ := log2fuel_spec 96 v h1 h96
  have hge : 53 ≤ log2fuel 96 v := by
    by_contra hcon
    push_neg at hcon
    have : (2 : ℕ) ^ (log2fuel 96 v + 1) ≤ 2 ^ 53 := Nat.pow_le_pow_right (by norm_num) (by omega)
    omega
  have hgt : ¬ (log2fuel 96 v ≤ 52) := by omega
  have hcond : ((1 : ℕ) : ℤ) ≤ (v : ℤ) := by exact_mod_cast h1
  unfold round53
  rw [if_neg hneg]
  unfold round53pos
  rw [hfl, if_pos hcond, if_neg hgt]
  obtain ⟨k, hk⟩ : ∃ k, log2fuel 96 v = 53 + k := ⟨log2fuel 96 v - 53, by omega⟩
  have hE52 : log2fuel 96 v - 52 = k + 1 := by omega
  rw [hE52]
  have hdpos : (0 : ℕ) < 1 * 2 ^ (k + 1) := by positivity
  have hrhe := (roundHalfEvenInt_bounds ⟨(v : ℤ), 1 * 2 ^ (k + 1)⟩ hdpos).1
  have htr2 : FQ.toRat ⟨(v : ℤ), 1 * 2 ^ (k + 1)⟩ = (v : ℚ) / 2 ^ (k + 1) := by
    rw [FQ.toRat]
    push_cast
    ring
  rw [htr2] at hrhe
  have h2k : (0 : ℚ) < 2 ^ (k + 1) := by positivity
  have hmul : (v : ℚ) / 2 ^ (k + 1) * 2 ^ (k + 1) = (v : ℚ) :=
    div_mul_cancel₀ _ (ne_of_gt h2k)
  have hk1 : (1 : ℚ) ≤ 2 ^ k := one_le_pow₀ (by norm_num)
  have hvlow : (2 : ℚ) ^ 53 * 2 ^ k ≤ (v : ℚ) := by
    have hn : (2 : ℕ) ^ (53 + k) ≤ v := hk ▸ hlo
    rw [pow_add] at hn
    exact_mod_cast hn
  have hstep :
      (v : ℚ) / 2 ^ (k + 1) * 2 ^ (k + 1) - (1 : ℚ) / 2 * 2 ^ (k + 1) ≤
      (roundHalfEvenInt ⟨(v : ℤ), 1 * 2 ^ (k + 1)⟩ : ℚ) * 2 ^ (k + 1) := by
    have := mul_le_mul_of_nonneg_right hrhe (le_of_lt h2k)
    nlinarith [this]
  rw [FQ.toRat]
  push_cast
  rw [div_one]
  have hring : (1 : ℚ) / 2 * 2 ^ (k + 1) = 2 ^ k := by ring
  rw [hmul, hring] at hstep
  nlinarith [hstep, hvlow, hk1]

theorem u64ToFloat_lb (v c : ℕ) (hv : v < 2 ^ 96) (hc : c ≤ 1024) (hcv : c ≤ v) :
    (c : ℚ) ≤ (u64ToFloat v).toRat := by
  rcases lt_or_le v (2 ^ 53) with h | h
  · rw [u64ToFloat, round53_natCast_exact v h]
    exact_mod_cast hcv
  · refine le_trans ?_ (round53_natCast_ge_1024 v h hv)
    exact_mod_cast hc

theorem bytesLimit_toRat (i : ℕ) : (bytesLimit i).toRat = 2 ^ (10 * i) := by
  rw [bytesLimit, FQ.toRat]
  push_cast
  exact div_one _

theorem hitsLimit_toRat (i : ℕ) : (hitsLimit i).toRat = 10 ^ (3 * i) := by
  rw [hitsLimit, FQ.toRat]
  push_cast
  exact div_one _

theorem bytesLimit_den_pos (i : ℕ) : 0 < (bytesLimit i).d := Nat.one_pos

theorem hitsLimit_den_pos (i : ℕ) : 0 < (hitsLimit i).d := Nat.one_pos

theorem scanUnits_spec (limit : ℕ → FQ) (units : List String) (x : FQ) (k : ℕ) :
    (∃ i, 1 ≤ i ∧ i ≤ k ∧ (limit i).ble x = true ∧
      (∀ j, i < j → j ≤ k → (limit j).ble x = false) ∧
      scanUnits limit units x k = (fdiv x (limit i), units.getD i "")) ∨
    ((∀ j, 1 ≤ j → j ≤ k → (limit j).ble x = false) ∧
      scanUnits limit units x k = (⟨0, 1⟩, "")) := by
  induction k with
  | zero =>
    right
    exact ⟨fun j h1 h2 => absurd (le_trans h1 h2) (by omega), rfl⟩
  | succ m ih =>
    by_cases hb : (limit (m + 1)).ble x = true
    · left
      refine ⟨m + 1, by omega, le_refl _, hb,
        fun j hj1 hj2 => absurd (lt_of_lt_of_le hj1 hj2) (lt_irrefl _), ?_⟩
      rw [scanUnits, if_pos hb]
    · have hb2 : (limit (m + 1)).ble x = false := by
        cases h : (limit (m + 1)).ble x
        · rfl
        · exact absurd h hb
      rcases ih with ⟨i, h1, h2, h3, h4, h5⟩ | ⟨h4, h5⟩
      · left
        refine ⟨i, h1, le_trans h2 (by omega), h3, ?_, ?_⟩
        · intro j hj1 hj2
          rcases Nat.lt_or_ge j (m + 1) with hj3 | hj3
          · exact h4 j hj1 (by omega)
          · have : j = m + 1 := by omega
            rw [this]
            exact hb2
        · rw [scanUnits, if_neg hb]
          exact h5
      · right
        refine ⟨?_, ?_⟩
        · intro j hj1 hj2
          rcases Nat.lt_or_ge j (m + 1) with hj3 | hj3
          · exact h4 j hj1 (by omega)
          · have : j = m + 1 := by omega
            rw [this]
            exact hb2
        · rw [scanUnits, if_neg hb]
          exact h5

theorem fBytes_bigBranch (v : ℕ) (hv : 1024 ≤ v) :
    fBytesCore v =
      fmtFixed1 (scanUnits bytesLimit unitsBytes (u64ToFloat v) 6).1 ++ " " ++
      (scanUnits bytesLimit unitsBytes (u64ToFloat v) 6).2 := by
  unfold fBytesCore
  rw [if_neg (by omega)]

theorem fHits_bigBranch (v : ℕ) (hv : 1000 ≤ v) :
    fHitsCore v =
      fmtFixed1 (scanUnits hitsLimit unitsHits (u64ToFloat v) 6).1 ++
      (scanUnits hitsLimit unitsHits (u64ToFloat v) 6).2 := by
  unfold fHitsCore
  rw [if_neg (by omega)]

/-- C1 (amended): for every unsigned 64-bit `v`, `fBytes` renders `v < 1024` as
the literal integer followed by `" Bytes"` with no decimal point; for
`v ≥ 1024` it selects the largest unit among KiB..EiB (searched descending
from EiB) whose threshold `2^(10*i)` is met by the float64 conversion of `v`
(not by `v` itself: the conversion rounds to 53 significant bits, ties to
even), divides by that threshold in float64, and renders with exactly one
decimal digit and a space before the unit; in particular
`fBytes(2^20) = "1.0 MiB"` and `fBytes(2^64-1) = "16.0 EiB"`. -/
theorem fBytes_unit_selection :
    (∀ v : ℕ, v < 2 ^ 64 → v < 1024 → fBytesCore v = toString v ++ " Bytes") ∧
    (∀ v : ℕ, v < 2 ^ 64 → 1024 ≤ v → ∃ i, 1 ≤ i ∧ i ≤ 6 ∧
      (2 : ℚ) ^ (10 * i) ≤ (u64ToFloat v).toRat ∧
      (∀ j, i < j → j ≤ 6 → (u64ToFloat v).toRat < (2 : ℚ) ^ (10 * j)) ∧
      fBytesCore v =
        fmtFixed1 (fdiv (u64ToFloat v) (bytesLimit i)) ++ " " ++ unitsBytes.getD i "") ∧
    fBytesCore (2 ^ 20) = "1.0 MiB" ∧ fBytesCore (2 ^ 64 - 1) = "16.0 EiB" := by
  refine ⟨?_, ?_, by decide, by decide⟩
  · intro v _ hlt
    unfold fBytesCore
    rw [if_pos hlt]
  · intro v h64 hge
    have hd := u64ToFloat_den_pos v
    have h1024 : (1024 : ℚ) ≤ (u64ToFloat v).toRat :=
      u64ToFloat_lb v 1024 (lt_trans h64 (by norm_num)) (le_refl _) hge
    rcases scanUnits_spec bytesLimit unitsBytes (u64ToFloat v) 6 with
      ⟨i, hi1, hi6, hble, hformer, heq⟩ | ⟨hall, heq⟩
    · refine ⟨i, hi1, hi6, ?_, ?_, ?_⟩
      · have h := (FQ.ble_iff (bytesLimit i) (u64ToFloat v) (bytesLimit_den_pos i) hd).1 hble
        rw [bytesLimit_toRat] at h
        exact h
      · intro j hj1 hj2
        have h := (FQ.ble_eq_false_iff (bytesLimit j) (u64ToFloat v)
          (bytesLimit_den_pos j) hd).1 (hformer j hj1 hj2)
        rw [bytesLimit_toRat] at h
        exact h
      · rw [fBytes_bigBranch v hge, heq]
    · exfalso
      have hb1 := hall 1 (le_refl _) (by omega)
      have h := (FQ.ble_eq_false_iff (bytesLimit 1) (u64ToFloat v)
        (bytesLimit_den_pos 1) hd).1 hb1
      rw [bytesLimit_toRat] at h
      norm_num at h
      linarith

/-- Witness for `fBytes_unit_selection` at the concrete inputs 500 and
`2^20 = 1048576`. -/
theorem fBytes_unit_selection_witness :
    fBytesCore 500 = toString 500 ++ " Bytes" ∧
    (∃ i, 1 ≤ i ∧ i ≤ 6 ∧
      (2 : ℚ) ^ (10 * i) ≤ (u64ToFloat 1048576).toRat ∧
      (∀ j, i < j → j ≤ 6 → (u64ToFloat 1048576).toRat < (2 : ℚ) ^ (10 * j)) ∧
      fBytesCore 1048576 =
        fmtFixed1 (fdiv (u64ToFloat 1048576) (bytesLimit i)) ++ " " ++ unitsBytes.getD i "") :=
  ⟨fBytes_unit_selection.1 500 (by norm_num) (by norm_num),
   fBytes_unit_selection.2.1 1048576 (by norm_num) (by norm_num)⟩

/-- C1 counterexample: at `v = 2^60 - 1` (which is at least 1024), the largest
unit whose threshold `v` itself meets is PiB (index 5): `2^50 ≤ v < 2^60`.
The claimed output shape would therefore be `"<one decimal> PiB"`, but the
code converts `v` to float64 first, which rounds up to exactly `2^60`, so the
EiB threshold is met and the output is `"1.0 EiB"` — not of the form
`"... PiB"` for any prefix. -/
theorem fBytes_claim_counterexample :
    1024 ≤ 2 ^ 60 - 1 ∧
    2 ^ (10 * 5) ≤ 2 ^ 60 - 1 ∧
    (2 ^ 60 - 1 : ℕ) < 2 ^ (10 * 6) ∧
    fBytesCore (2 ^ 60 - 1) = "1.0 EiB" ∧
    ¬ ∃ d : String, fBytesCore (2 ^ 60 - 1) = d ++ " PiB" := by
  have hv : fBytesCore (2 ^ 60 - 1) = "1.0 EiB" := by decide
  refine ⟨by norm_num, by norm_num, by norm_num, hv, ?_⟩
  rintro ⟨d, hd⟩
  rw [hv] at hd
  have h2 : ("1.0 EiB" : String).data.reverse = (d ++ " PiB").data.reverse := by rw [hd]
  rw [String.data_append, List.reverse_append] at h2
  have h3 : (" PiB" : String).data.reverse = ['B', 'i', 'P', ' '] := rfl
  have h4 : ("1.0 EiB" : String).data.reverse = ['B', 'i', 'E', ' ', '0', '.', '1'] := rfl
  rw [h3, h4] at h2
  simp only [List.cons_append, List.nil_append] at h2
  injection h2 with ha h2
  injection h2 with hb h2
  injection h2 with hc h2
  exact absurd hc (by decide)

/-- C3 counterexample: `fHits 0` is not the bare decimal integer `"0"`; the
code appends four blanks (`fmt.Sprintf("%d    ", hits)`). -/
theorem fHits_small_counterexample :
    fHitsCore 0 = "0    " ∧ ("0    " : String) ≠ "0" := ⟨by decide, by decide⟩

/-- C3 (amended): for every unsigned 64-bit `v < 1000`, `fHits` returns the
bare decimal integer rendering of `v` followed by exactly four blanks (column
padding, per the source comment "Leave spaces to align with unit output");
there is no unit suffix and no decimal point. -/
theorem fHits_small_padded (v : ℕ) (hv : v < 1000) :
    fHitsCore v = toString v ++ "    " := by
  unfold fHitsCore
  rw [if_pos hv]

/-- Witness for `fHits_small_padded` at `v = 64`. -/
theorem fHits_small_padded_witness : fHitsCore 64 = toString 64 ++ "    " :=
  fHits_small_padded 64 (by norm_num)

/-- C4 (amended): for every unsigned 64-bit `v ≥ 1000`, `fHits` selects the
largest decimal magnitude among `10^3 .. 10^18` (unit letters k..E, searched
descending from E) whose threshold is met by the float64 conversion of `v`
(not by `v` itself), divides by it in float64, and renders one decimal digit
immediately followed by the unit letter; in particular
`fHits(1000) = "1.0k"`, `fHits(10^18) = "1.0E"`, `fHits(2^64-1) = "18.4E"`. -/
theorem fHits_unit_selection :
    (∀ v : ℕ, v < 2 ^ 64 → 1000 ≤ v → ∃ i, 1 ≤ i ∧ i ≤ 6 ∧
      (10 : ℚ) ^ (3 * i) ≤ (u64ToFloat v).toRat ∧
      (∀ j, i < j → j ≤ 6 → (u64ToFloat v).toRat < (10 : ℚ) ^ (3 * j)) ∧
      fHitsCore v = fmtFixed1 (fdiv (u64ToFloat v) (hitsLimit i)) ++ unitsHits.getD i "") ∧
    fHitsCore 1000 = "1.0k" ∧ fHitsCore (10 ^ 18) = "1.0E" ∧
    fHitsCore (2 ^ 64 - 1) = "18.4E" := by
  refine ⟨?_, by decide, by decide, by decide⟩
  intro v h64 hge
  have hd := u64ToFloat_den_pos v
  have h1000 : (1000 : ℚ) ≤ (u64ToFloat v).toRat :=
    u64ToFloat_lb v 1000 (lt_trans h64 (by norm_num)) (by norm_num) hge
  rcases scanUnits_spec hitsLimit unitsHits (u64ToFloat v) 6 with
    ⟨i, hi1, hi6, hble, hformer, heq⟩ | ⟨hall, heq⟩
  · refine ⟨i, hi1, hi6, ?_, ?_, ?_⟩
    · have h := (FQ.ble_iff (hitsLimit i) (u64ToFloat v) (hitsLimit_den_pos i) hd).1 hble
      rw [hitsLimit_toRat] at h
      exact h
    · intro j hj1 hj2
      have h := (FQ.ble_eq_false_iff (hitsLimit j) (u64ToFloat v)
        (hitsLimit_den_pos j) hd).1 (hformer j hj1 hj2)
      rw [hitsLimit_toRat] at h
      exact h
    · rw [fHits_bigBranch v hge, heq]
  · exfalso
    have hb1 := hall 1 (le_refl _) (by omega)
    have h := (FQ.ble_eq_false_iff (hitsLimit 1) (u64ToFloat v)
      (hitsLimit_den_pos 1) hd).1 hb1
    rw [hitsLimit_toRat] at h
    norm_num at h
    linarith

/-- Witness for `fHits_unit_selection` at the concrete input 2101. -/
theorem fHits_unit_selection_witness :
    ∃ i, 1 ≤ i ∧ i ≤ 6 ∧
      (10 : ℚ) ^ (3 * i) ≤ (u64ToFloat 2101).toRat ∧
      (∀ j, i < j → j ≤ 6 → (u64ToFloat 2101).toRat < (10 : ℚ) ^ (3 * j)) ∧
      fHitsCore 2101 = fmtFixed1 (fdiv (u64ToFloat 2101) (hitsLimit i)) ++ unitsHits.getD i "" :=
  fHits_unit_selection.1 2101 (by norm_num) (by norm_num)

/-- C4 counterexample: at `v = 10^18 - 1` (at least 1000), the largest decimal
magnitude `v` itself meets is `10^15` (unit letter P): `10^15 ≤ v < 10^18`, so
the claimed output would end in `"P"`.  The code converts to float64 first,
which rounds `10^18 - 1` up to exactly `10^18`, so the E threshold is met and
the output is `"1.0E"`, which does not end in `"P"`. -/
theorem fHits_claim_counterexample :
    1000 ≤ 10 ^ 18 - 1 ∧
    10 ^ (3 * 5) ≤ 10 ^ 18 - 1 ∧
    (10 ^ 18 - 1 : ℕ) < 10 ^ (3 * 6) ∧
    fHitsCore (10 ^ 18 - 1) = "1.0E" ∧
    ¬ ∃ d : String, fHitsCore (10 ^ 18 - 1) = d ++ "P" := by
  have hv : fHitsCore (10 ^ 18 - 1) = "1.0E" := by decide
  refine ⟨by norm_num, by norm_num, by norm_num, hv, ?_⟩
  rintro ⟨d, hd⟩
  rw [hv] at hd
  have h2 : ("1.0E" : String).data.reverse = (d ++ "P").data.reverse := by rw [hd]
  rw [String.data_append, List.reverse_append] at h2
  have h3 : ("P" : String).data.reverse = ['P'] := rfl
  have h4 : ("1.0E" : String).data.reverse = ['E', '0', '.', '1'] := rfl
  rw [h3, h4] at h2
  simp only [List.cons_append, List.nil_append] at h2
  injection h2 with ha h2
  exact absurd ha (by decide)

theorem parseFloat64_shape (s : String) (l : FQ) (h : parseFloat64 s = some l) :
    ∃ z : ℤ, l = round53 ⟨z, 1⟩ := by
  unfold parseFloat64 at h
  split at h <;>
    (try split at h) <;>
    (try split at h) <;>
    first
      | exact ⟨_, (Option.some.inj h).symm⟩
      | simp_all

theorem parseFloat64_den_pos (s : String) (l : FQ) (h : parseFloat64 s = some l) :
    0 < l.d := by
  obtain ⟨z, rfl⟩ := parseFloat64_shape s l h
  exact round53_den_pos ⟨z, 1⟩

theorem FQ.blt_zero_iff (l : FQ) (hl : 0 < l.d) :
    (⟨0, 1⟩ : FQ).blt l = true ↔ 0 < l.toRat := by
  rw [FQ.blt_iff ⟨0, 1⟩ l Nat.one_pos hl]
  have h0 : (⟨0, 1⟩ : FQ).toRat = 0 := by rw [FQ.toRat_mk]; norm_num
  rw [h0]

/-- C2: `fPerc` fails fatally (modelled as `none`) when either operand does
not parse as numeric; for every pair of parseable operands, a denominator
that is zero or negative yields the blank placeholder `" "` without dividing
and without crashing, and a positive denominator yields the one-decimal
rendering of the float64 value `100 * u / l` followed by `" %"`; in
particular `fPerc "50" "200" = "25.0 %"` and a zero denominator yields the
placeholder.  The sub-1-percent case exercises the float64 model below 1:
`100 * 7.0 / 2000.0` is the double `0.34999999999999997...`, so
`fPerc "7" "2000" = "0.3 %"`, exactly as the Go program prints. -/
theorem fPerc_spec :
    (∀ up lo : String, parseFloat64 up = none → fPerc up lo = none) ∧
    (∀ up lo : String, parseFloat64 lo = none → fPerc up lo = none) ∧
    (∀ (up lo : String) (u l : FQ), parseFloat64 up = some u → parseFloat64 lo = some l →
      l.toRat ≤ 0 → fPerc up lo = some " ") ∧
    (∀ (up lo : String) (u l : FQ), parseFloat64 up = some u → parseFloat64 lo = some l →
      0 < l.toRat →
      fPerc up lo = some (fmtFixed1 (fdiv (fmul ⟨100, 1⟩ u) l) ++ " %")) ∧
    fPerc "50" "200" = some "25.0 %" ∧ fPerc "987654321" "0" = some " " ∧
    fPerc "7" "2000" = some "0.3 %" := by
  refine ⟨?_, ?_, ?_, ?_, by decide, by decide, by decide⟩
  · intro up lo h
    unfold fPerc
    rw [h]
  · intro up lo h
    unfold fPerc
    rw [h]
    cases parseFloat64 up <;> rfl
  · intro up lo u l hu hl hle
    have hbf : (⟨0, 1⟩ : FQ).blt l = false := by
      have := FQ.blt_zero_iff l (parseFloat64_den_pos lo l hl)
      cases h : (⟨0, 1⟩ : FQ).blt l
      · rfl
      · exact absurd (this.1 h) (not_lt.2 hle)
    unfold fPerc
    rw [hu, hl]
    show some (if (⟨0, 1⟩ : FQ).blt l = true
      then fmtFixed1 (fdiv (fmul ⟨100, 1⟩ u) l) ++ " %" else " ") = some " "
    rw [hbf]
    rfl
  · intro up lo u l hu hl hlt
    have hbt : (⟨0, 1⟩ : FQ).blt l = true :=
      (FQ.blt_zero_iff l (parseFloat64_den_pos lo l hl)).2 hlt
    unfold fPerc
    rw [hu, hl]
    show some (if (⟨0, 1⟩ : FQ).blt l = true
      then fmtFixed1 (fdiv (fmul ⟨100, 1⟩ u) l) ++ " %" else " ") =
      some (fmtFixed1 (fdiv (fmul ⟨100, 1⟩ u) l) ++ " %")
    rw [hbt]
    rfl

/-- Witness for `fPerc_spec` at the concrete operand pairs `("75", "0")` and
`("50", "200")`. -/
theorem fPerc_spec_witness :
    fPerc "75" "0" = some " " ∧
    fPerc "50" "200" =
      some (fmtFixed1 (fdiv (fmul ⟨100, 1⟩ (round53 ⟨50, 1⟩)) (round53 ⟨200, 1⟩)) ++ " %") := by
  constructor
  · refine fPerc_spec.2.2.1 "75" "0" (round53 ⟨75, 1⟩) (round53 ⟨0, 1⟩) (by decide) (by decide) ?_
    rw [show round53 (⟨0, 1⟩ : FQ) = (⟨0, 1⟩ : FQ) from by decide, FQ.toRat_mk]
    norm_num
  · refine fPerc_spec.2.2.2.1 "50" "200" (round53 ⟨50, 1⟩) (round53 ⟨200, 1⟩)
      (by decide) (by decide) ?_
    rw [show round53 (⟨200, 1⟩ : FQ) = (⟨200 * 2 ^ 45, 2 ^ 45⟩ : FQ) from by decide, FQ.toRat_mk]
    norm_num

/-- C5: in the ARC report the health flag is `"HEALTHY"` exactly when the
`memory_throttle_count` statistic reads `"0"` and `"THROTTLED"` otherwise;
the ARC size percentage is `fPerc(size, c_max)`; and the MFU and MRU
percentages are computed relative to the sum `mfu_size + mru_size` (not
relative to the total ARC size). -/
theorem printARC_derived_metrics (stats : String → String) (rep : ARCReport)
    (h : printARCData stats = some rep) (m r : ℕ)
    (hm : stringToUint64 (stats "mfu_size") = some m)
    (hr : stringToUint64 (stats "mru_size") = some r)
    (hs : m + r < 2 ^ 64) :
    (rep.health = "HEALTHY" ↔ stats "memory_throttle_count" = "0") ∧
    (rep.health = "THROTTLED" ↔ stats "memory_throttle_count" ≠ "0") ∧
    fPerc (stats "size") (stats "c_max") = some rep.arcPerc ∧
    fPerc (stats "mfu_size") (toString (m + r)) = some rep.mfuPerc ∧
    fPerc (stats "mru_size") (toString (m + r)) = some rep.mruPerc := by
  unfold printARCData at h
  simp only [bind, Option.bind_eq_some, Option.pure_def, Option.some.injEq] at h
  obtain ⟨tc, htc, asz, hasz, ap, hap, ts, hts, mins, hmins, maxs, hmaxs, mn, hmn,
    rn, hrn, mp, hmp, rp, hrp, ms2, hms2, rs2, hrs2, hrep⟩ := h
  have hmn2 : mn = m := by
    rw [hm] at hmn
    exact (Option.some.inj hmn).symm
  have hrn2 : rn = r := by
    rw [hr] at hrn
    exact (Option.some.inj hrn).symm
  subst hmn2
  subst hrn2
  rw [Nat.mod_eq_of_lt hs] at hmp hrp
  subst hrep
  refine ⟨?_, ?_, hap, hmp, hrp⟩
  · by_cases hth : stats "memory_throttle_count" = "0"
    · rw [if_neg (not_not_intro hth)]
      simp [hth]
    · rw [if_pos hth]
      refine iff_of_false ?_ hth
      show ¬ ("THROTTLED" : String) = "HEALTHY"
      decide
  · by_cases hth : stats "memory_throttle_count" = "0"
    · rw [if_neg (not_not_intro hth)]
      refine iff_of_false ?_ (not_not_intro hth)
      show ¬ ("HEALTHY" : String) = "THROTTLED"
      decide
    · rw [if_pos hth]
      exact iff_of_true rfl hth

/-- Witness for `printARC_derived_metrics` on the concrete statistics map
`arcStats0` (mfu 600, mru 300, size 1000, c_max 2000, throttle 0). -/
theorem printARC_derived_metrics_witness :
    (arcRep0.health = "HEALTHY" ↔ arcStats0 "memory_throttle_count" = "0") ∧
    (arcRep0.health = "THROTTLED" ↔ arcStats0 "memory_throttle_count" ≠ "0") ∧
    fPerc (arcStats0 "size") (arcStats0 "c_max") = some arcRep0.arcPerc ∧
    fPerc (arcStats0 "mfu_size") (toString (600 + 300)) = some arcRep0.mfuPerc ∧
    fPerc (arcStats0 "mru_size") (toString (600 + 300)) = some arcRep0.mruPerc :=
  printARC_derived_metrics arcStats0 arcRep0 (by decide) 600 300
    (by decide) (by decide) (by norm_num)

/-- C6: in the VDEV report the hit, miss and delegation ratios are each
computed by the percentage formatter with denominator the sum of the three
raw counters `hits + misses + delegations`. -/
theorem printVDEV_ratios (stats : String → String) (rep : VDEVReport)
    (h : printVDEVData stats = some rep) (d m hc : ℕ)
    (hd : stringToUint64 (stats "delegations") = some d)
    (hm : stringToUint64 (stats "misses") = some m)
    (hh : stringToUint64 (stats "hits") = some hc)
    (hs : d + m + hc < 2 ^ 64) :
    fPerc (stats "hits") (toString (d + m + hc)) = some rep.hitRow.2.1 ∧
    fPerc (stats "misses") (toString (d + m + hc)) = some rep.missRow.2.1 ∧
    fPerc (stats "delegations") (toString (d + m + hc)) = some rep.delegRow.2.1 := by
  unfold printVDEVData at h
  simp only [bind, Option.bind_eq_some, Option.pure_def, Option.some.injEq] at h
  obtain ⟨dn, hdn, mn, hmn, hn, hhn, hrat, hhrat, mrat, hmrat, drat, hdrat,
    hcnt, hhcnt, hrep⟩ := h
  have h1 : dn = d := by rw [hd] at hdn; exact (Option.some.inj hdn).symm
  have h2 : mn = m := by rw [hm] at hmn; exact (Option.some.inj hmn).symm
  have h3 : hn = hc := by rw [hh] at hhn; exact (Option.some.inj hhn).symm
  subst h1
  subst h2
  subst h3
  rw [Nat.mod_eq_of_lt hs] at hhrat hmrat hdrat
  subst hrep
  exact ⟨hhrat, hmrat, hdrat⟩

/-- Witness for `printVDEV_ratios` on the concrete statistics map
`vdevStats0` (delegations 40, misses 160, hits 1800). -/
theorem printVDEV_ratios_witness :
    fPerc (vdevStats0 "hits") (toString (40 + 160 + 1800)) = some vdevRep0.hitRow.2.1 ∧
    fPerc (vdevStats0 "misses") (toString (40 + 160 + 1800)) = some vdevRep0.missRow.2.1 ∧
    fPerc (vdevStats0 "delegations") (toString (40 + 160 + 1800)) = some vdevRep0.delegRow.2.1 :=
  printVDEV_ratios vdevStats0 vdevRep0 (by decide) 40 160 1800
    (by decide) (by decide) (by decide) (by norm_num)

/-- C10 (implicit): all three VDEV rows — "Cache hits:", "Cache misses:" and
"Cache delegations:" — print the formatted hits counter `fHits(hits)` as
their count column; the misses and delegations rows do not print their own
counters, only their ratios differ. -/
theorem printVDEV_counts_all_hits (stats : String → String) (rep : VDEVReport)
    (h : printVDEVData stats = some rep) :
    rep.hitRow.1 = "Cache hits:" ∧
    rep.missRow.1 = "Cache misses:" ∧
    rep.delegRow.1 = "Cache delegations:" ∧
    fHits (stats "hits") = some rep.hitRow.2.2 ∧
    rep.missRow.2.2 = rep.hitRow.2.2 ∧
    rep.delegRow.2.2 = rep.hitRow.2.2 := by
  unfold printVDEVData at h
  simp only [bind, Option.bind_eq_some, Option.pure_def, Option.some.injEq] at h
  obtain ⟨dn, hdn, mn, hmn, hn, hhn, hrat, hhrat, mrat, hmrat, drat, hdrat,
    hcnt, hhcnt, hrep⟩ := h
  subst hrep
  refine ⟨rfl, rfl, rfl, ?_, rfl, rfl⟩
  show fHits (stats "hits") = some hcnt
  exact hhcnt

/-- Witness for `printVDEV_counts_all_hits` on `vdevStats0`. -/
theorem printVDEV_counts_all_hits_witness :
    vdevRep0.hitRow.1 = "Cache hits:" ∧
    vdevRep0.missRow.1 = "Cache misses:" ∧
    vdevRep0.delegRow.1 = "Cache delegations:" ∧
    fHits (vdevStats0 "hits") = some vdevRep0.hitRow.2.2 ∧
    vdevRep0.missRow.2.2 = vdevRep0.hitRow.2.2 ∧
    vdevRep0.delegRow.2.2 = vdevRep0.hitRow.2.2 :=
  printVDEV_counts_all_hits vdevStats0 vdevRep0 (by decide)

theorem dropWhile_all_false {α : Type} (p : α → Bool) (l : List α)
    (h : ∀ c ∈ l, p c = false) : l.dropWhile p = l := by
  cases l with
  | nil => rfl
  | cons a t =>
    rw [List.dropWhile_cons, h a (List.mem_cons_self a t)]
    simp

theorem goFieldsAux_no_space : ∀ (cs : List Char) (acc : List Char),
    (∀ c ∈ acc, goIsSpace c = false) →
    ∀ f ∈ goFieldsAux cs acc, ∀ c ∈ f.data, goIsSpace c = false := by
  intro cs
  induction cs with
  | nil =>
    intro acc hacc f hf c hc
    rw [goFieldsAux] at hf
    split at hf
    · exact absurd hf (List.not_mem_nil f)
    · rw [List.mem_singleton] at hf
      subst hf
      rw [show (String.mk acc.reverse).data = acc.reverse from rfl, List.mem_reverse] at hc
      exact hacc c hc
  | cons a t ih =>
    intro acc hacc f hf c hc
    rw [goFieldsAux] at hf
    by_cases hsp : goIsSpace a = true
    · rw [if_pos hsp] at hf
      have hnil : ∀ x ∈ ([] : List Char), goIsSpace x = false := by
        intro x hx
        exact absurd hx (List.not_mem_nil x)
      split at hf
      · exact ih [] hnil f hf c hc
      · rcases List.mem_cons.1 hf with h1 | h1
        · subst h1
          rw [show (String.mk acc.reverse).data = acc.reverse from rfl, List.mem_reverse] at hc
          exact hacc c hc
        · exact ih [] hnil f h1 c hc
    · have hsp2 : goIsSpace a = false := by
        cases hgs : goIsSpace a
        · rfl
        · exact absurd hgs hsp
      rw [if_neg hsp] at hf
      refine ih (a :: acc) ?_ f hf c hc
      intro x hx
      rcases List.mem_cons.1 hx with h1 | h1
      · subst h1; exact hsp2
      · exact hacc x h1

theorem goFields_no_space (s : String) (f : String) (hf : f ∈ goFields s) :
    ∀ c ∈ f.data, goIsSpace c = false := by
  refine goFieldsAux_no_space s.data [] ?_ f hf
  intro x hx
  exact absurd hx (List.not_mem_nil x)

theorem goTrimSpace_eq_self (f : String) (hf : ∀ c ∈ f.data, goIsSpace c = false) :
    goTrimSpace f = f := by
  rw [goTrimSpace, dropWhile_all_false _ _ hf,
      dropWhile_all_false _ _ (fun c hc => hf c (List.mem_reverse.1 hc)),
      List.reverse_reverse]

/-- C7: for every input line with at least three white-space-delimited fields,
`cleanProcLine` returns the pair (first field, third field), discarding the
middle type-tag field; in particular
`cleanProcLine "arc_no_grow 4 0" = ("arc_no_grow", "0")`. -/
theorem cleanProcLine_extracts_fields :
    (∀ s : String, 3 ≤ (goFields s).length →
      cleanProcLine s = some ((goFields s).getD 0 "", (goFields s).getD 2 "")) ∧
    cleanProcLine "arc_no_grow 4 0" = some ("arc_no_grow", "0") := by
  refine ⟨?_, by decide⟩
  intro s h3
  have h2 : 2 < (goFields s).length := h3
  unfold cleanProcLine
  rw [dif_pos h2]
  have hg0 : (goFields s).getD 0 "" = (goFields s).get ⟨0, by omega⟩ :=
    List.getD_eq_get _ _ (by omega)
  have hg2 : (goFields s).getD 2 "" = (goFields s).get ⟨2, h2⟩ :=
    List.getD_eq_get _ _ h2
  rw [hg0, hg2,
      goTrimSpace_eq_self _ (goFields_no_space s _ (List.get_mem _ _ _)),
      goTrimSpace_eq_self _ (goFields_no_space s _ (List.get_mem _ _ _))]

/-- Witness for `cleanProcLine_extracts_fields` on a concrete line with
tab-and-space separators. -/
theorem cleanProcLine_extracts_fields_witness :
    cleanProcLine "hits 4 12345" =
      some ((goFields "hits 4 12345").getD 0 "", (goFields "hits 4 12345").getD 2 "") :=
  cleanProcLine_extracts_fields.1 "hits 4 12345" (by decide)

/-- C8: `cleanProcLine` returns a normal result exactly when the line has at
least three white-space-delimited fields; with fewer fields the index access
panics (modelled as `none`). -/
theorem cleanProcLine_totality :
    (∀ s : String, 3 ≤ (goFields s).length → ∃ p, cleanProcLine s = some p) ∧
    (∀ s : String, (goFields s).length < 3 → cleanProcLine s = none) := by
  constructor
  · intro s h3
    have h2 : 2 < (goFields s).length := h3
    refine ⟨(goTrimSpace ((goFields s).get ⟨0, by omega⟩),
             goTrimSpace ((goFields s).get ⟨2, h2⟩)), ?_⟩
    unfold cleanProcLine
    rw [dif_pos h2]
  · intro s h3
    unfold cleanProcLine
    rw [dif_neg (by omega)]

/-- Witness for `cleanProcLine_totality`: a three-field line succeeds, a
two-field line fails. -/
theorem cleanProcLine_totality_witness :
    (∃ p, cleanProcLine "a b c" = some p) ∧ cleanProcLine "a b" = none :=
  ⟨cleanProcLine_totality.1 "a b c" (by decide),
   cleanProcLine_totality.2 "a b" (by decide)⟩

/-- C9: `isLegalSection` returns `true` exactly on the eight section
identifiers, and `false` on every other string, including the empty string
and the case-variant `"ARC"`; as a pure function it has no side effects. -/
theorem isLegalSection_spec :
    (∀ s : String, isLegalSection s = true ↔
      (s = "arc" ∨ s = "dmu" ∨ s = "l2arc" ∨ s = "tunables" ∨ s = "vdev" ∨
       s = "xuio" ∨ s = "zfetch" ∨ s = "zil")) ∧
    isLegalSection "" = false ∧ isLegalSection "ARC" = false := by
  refine ⟨?_, by decide, by decide⟩
  intro s
  constructor
  · intro h
    by_contra hne
    push_neg at hne
    obtain ⟨h1, h2, h3, h4, h5, h6, h7, h8⟩ := hne
    unfold isLegalSection sections at h
    simp only [List.foldl_cons, List.foldl_nil, if_neg h1, if_neg h2, if_neg h3, if_neg h4,
      if_neg h5, if_neg h6, if_neg h7, if_neg h8] at h
    exact absurd h (by decide)
  · intro h
    rcases h with h | h | h | h | h | h | h | h <;> subst h <;> decide
